import Mathlib

/-!
Shallow embedding of the tumuchain runtime pallets (pallets/utxo and
pallets/difficulty) and verification of behavioural properties.

Machine integers are modelled as `Nat` with explicit bounds where the source
uses checked arithmetic (`checked_add` on u64/u128).  The external hashing
primitive (BlakeTwo256) and the sr25519 signature verifier are host-supplied
collaborators, so they are passed as explicit function parameters; concrete
instantiations are used for evaluation.  U256 arithmetic in the difficulty
pallet is modelled on `Nat`; the model agrees with the source on every input
where the source's 256-bit operations do not trap, and theorems carry the
side conditions (positive divisors) that keep the source inside that domain.
-/

/-! ## Byte-level SCALE encoding helpers -/

/-- Little-endian byte representation with a fixed width, as used by SCALE for
fixed-width scalars and fixed hashes (`u64`, `u128`, `H256`, `H512`). -/
def leBytes : Nat → Nat → List Nat
  | 0, _ => []
  | k + 1, n => n % 256 :: leBytes k (n / 256)

/-- Number of bytes in the minimal base-256 representation of `n`. -/
def byteLen (n : Nat) : Nat := if n = 0 then 0 else Nat.log 256 n + 1

/-- SCALE compact (general) integer encoding, used for collection lengths. -/
def compactEncode (n : Nat) : List Nat :=
  if n < 64 then [n * 4]
  else if n < 16384 then leBytes 2 (n * 4 + 1)
  else if n < 1073741824 then leBytes 4 (n * 4 + 2)
  else ((max 4 (byteLen n) - 4) * 4 + 3) :: leBytes (max 4 (byteLen n)) n

def encodeU64 (n : Nat) : List Nat := leBytes 8 n

def encodeU128 (n : Nat) : List Nat := leBytes 16 n

def encodeH256 (n : Nat) : List Nat := leBytes 32 n

def encodeH512 (n : Nat) : List Nat := leBytes 64 n

/-- Interpret a byte string as a little-endian natural number.  Used to build
a concrete injective-on-equal-length instantiation of the hash oracle. -/
def fromLE (bs : List Nat) : Nat := bs.foldr (fun b acc => acc * 256 + b) 0

/-- `checked_add` of Rust integers: `some (a + b)` when the sum is still a
representable value (strictly below `bound = 2^width`), `none` on overflow. -/
def checkedAdd (a b bound : Nat) : Option Nat :=
  if a + b < bound then some (a + b) else none

/-! ## Difficulty pallet (pallets/difficulty/src/lib.rs) -/

/-- Host configuration of the difficulty pallet (`Config` trait constants). -/
structure DiffConfig where
  targetBlockTime : Nat
  dampFactor : Nat
  clampFactor : Nat
  maxDifficulty : Nat
  minDifficulty : Nat
deriving DecidableEq, Repr

/-- One sample of the sliding window (`DifficultyAndTimestamp`). -/
structure DifficultyAndTimestamp where
  difficulty : Nat
  timestamp : Nat
deriving DecidableEq, Repr

/-- `fn damp(actual, goal, damp_factor) = (actual + (damp_factor-1)*goal) / damp_factor`. -/
def damp (actual goal damp_factor : Nat) : Nat :=
  (actual + (damp_factor - 1) * goal) / damp_factor

/-- `fn clamp(actual, goal, clamp_factor) = max(goal/clamp_factor, min(actual, goal*clamp_factor))`. -/
def clamp (actual goal clamp_factor : Nat) : Nat :=
  max (goal / clamp_factor) (min actual (goal * clamp_factor))

/-- The timestamp delta loop of `update_difficulty`:
`for i in 1..len { ts_delta += cur.saturating_sub(prev) }`.
Saturating subtraction on unsigned integers is `Nat` subtraction. -/
def sumDeltas : List DifficultyAndTimestamp → Nat
  | [] => 0
  | [_] => 0
  | a :: b :: rest => (b.timestamp - a.timestamp) + sumDeltas (b :: rest)

/-- `const DIFFICULTY_ADJUST_WINDOW: u128 = 60`. -/
def DIFFICULTY_ADJUST_WINDOW : Nat := 60

/-- `Pallet::update_difficulty`, returning the value written to
`CurrentDifficulty`.  Faithful to the source: the zero `ts_delta` guard, the
difficulty-sum floor at `MinDifficulty`, the `60 * TargetBlockTime`
adjustment window, damp-then-clamp, and the final `min(MAX, max(MIN, _))`. -/
def update_difficulty (cfg : DiffConfig) (data : List DifficultyAndTimestamp) : Nat :=
  let tsDelta0 := sumDeltas data
  let tsDelta := if tsDelta0 = 0 then 1 else tsDelta0
  let diffSum0 := (data.map (fun x => x.difficulty)).sum
  let diffSum := if diffSum0 < cfg.minDifficulty then cfg.minDifficulty else diffSum0
  let adjustmentWindow := DIFFICULTY_ADJUST_WINDOW * cfg.targetBlockTime
  let adjTs := clamp (damp tsDelta adjustmentWindow cfg.dampFactor)
      adjustmentWindow cfg.clampFactor
  min cfg.maxDifficulty (max cfg.minDifficulty (diffSum * cfg.targetBlockTime / adjTs))

/-- Genesis build of the difficulty pallet:
`<CurrentDifficulty<T>>::put(self.initial_difficulty)` — the configured
initial difficulty is stored as-is, with no clamping. -/
def difficulty_genesis_build (initialDifficulty : Nat) : Nat := initialDifficulty

/-- The concrete configuration of the pallet's own mock runtime
(pallets/difficulty/src/mock.rs): B = 10, D = 2, C = 2, MAX = u128::MAX, MIN = 1. -/
def testDiffConfig : DiffConfig :=
  { targetBlockTime := 10
    dampFactor := 2
    clampFactor := 2
    maxDifficulty := 2 ^ 128 - 1
    minDifficulty := 1 }

/-- A window of `n` samples at constant difficulty `d` whose consecutive
timestamps differ by exactly `B`, starting at `t`. -/
def eqWindow (d t B : Nat) : Nat → List DifficultyAndTimestamp
  | 0 => []
  | n + 1 => ⟨d, t⟩ :: eqWindow d (t + B) B n

/-! ## UTXO pallet (pallets/utxo/src/lib.rs)

`H256` and `H512` values are modelled as natural numbers below `2^256` and
`2^512`; their SCALE encoding is the little-endian byte string of the fixed
width.  `Value = u128` is a natural number; checked operations carry the
`2^128` bound explicitly. -/

/-- `pub const MAX_TRANSACTION_PARTS: u32 = 100`. -/
def MAX_TRANSACTION_PARTS : Nat := 100

/-- `TransactionInput { outpoint: H256, sigscript: H512 }`. -/
structure TransactionInput where
  outpoint : Nat
  sigscript : Nat
deriving DecidableEq, Repr

/-- `TransactionOutput { value: Value, pubkey: H256 }`. -/
structure TransactionOutput where
  value : Nat
  pubkey : Nat
deriving DecidableEq, Repr

/-- `Transaction { inputs, outputs }`.  The source bounds both vectors by
`MAX_TRANSACTION_PARTS`; the bound is carried as a hypothesis where needed. -/
structure Transaction where
  inputs : List TransactionInput
  outputs : List TransactionOutput
deriving DecidableEq, Repr

/-- SCALE encoding of a `TransactionInput`: 32 raw bytes of the outpoint
followed by 64 raw bytes of the sigscript. -/
def encodeInput (i : TransactionInput) : List Nat :=
  encodeH256 i.outpoint ++ encodeH512 i.sigscript

/-- SCALE encoding of a `TransactionOutput`: the value as a little-endian
u128 followed by 32 raw bytes of the pubkey. -/
def encodeOutput (o : TransactionOutput) : List Nat :=
  encodeU128 o.value ++ encodeH256 o.pubkey

/-- SCALE encoding of a vector: compact length prefix, then the elements. -/
def encodeVec (enc : α → List Nat) (xs : List α) : List Nat :=
  compactEncode xs.length ++ (xs.map enc).flatten

/-- `transaction.encode()`: the two bounded vectors in order. -/
def encodeTransaction (t : Transaction) : List Nat :=
  encodeVec encodeInput t.inputs ++ encodeVec encodeOutput t.outputs

/-- The loop body of `get_simple_transaction`: every input's sigscript is
replaced by `H512::zero()`. -/
def stripSigs (t : Transaction) : Transaction :=
  { t with inputs := t.inputs.map fun i => { i with sigscript := 0 } }

/-- `Pallet::get_simple_transaction`: encode the sigscript-stripped clone. -/
def get_simple_transaction (t : Transaction) : List Nat :=
  encodeTransaction (stripSigs t)

/-- The external 256-bit digest (BlakeTwo256): a function from byte strings
to `H256` values.  `hash_of(x)` is this function applied to `x.encode()`. -/
abbrev HashFn : Type := List Nat → Nat

/-- The external signature verifier (`sp_io::crypto::sr25519_verify`),
applied to the sigscript, the message, and the referenced UTXO's pubkey. -/
abbrev SigVerify : Type := Nat → List Nat → Nat → Bool

/-- The output hash computed at index `i` in both `validate_transaction` and
`update_storage`: `BlakeTwo256::hash_of(&(&transaction.encode(), index))`.
SCALE-encoding the pair `(&Vec<u8>, u64)` prefixes the vector with its
compact length, so the digested bytes are
`compact(|encode(T)|) ++ encode(T) ++ u64_le(i)` with `T` the full
transaction, sigscripts included. -/
def output_hash (h : HashFn) (t : Transaction) (i : Nat) : Nat :=
  h (compactEncode (encodeTransaction t).length ++ encodeTransaction t ++ encodeU64 i)

/-- The UTXO storage map `UtxoStore`, as an association list from `H256`
keys to outputs.  `mapInsert` keeps at most one binding per key. -/
abbrev UtxoMap : Type := List (Nat × TransactionOutput)

/-- `UtxoStore::get`. -/
def mapGet (m : UtxoMap) (k : Nat) : Option TransactionOutput :=
  match m with
  | [] => none
  | kv :: rest => if kv.1 = k then some kv.2 else mapGet rest k

/-- `UtxoStore::contains_key`. -/
def mapContains (m : UtxoMap) (k : Nat) : Bool :=
  (mapGet m k).isSome

/-- `UtxoStore::remove`. -/
def mapRemove (m : UtxoMap) (k : Nat) : UtxoMap :=
  m.filter fun kv => kv.1 ≠ k

/-- `UtxoStore::insert` (overwrites any existing binding). -/
def mapInsert (m : UtxoMap) (k : Nat) (v : TransactionOutput) : UtxoMap :=
  (k, v) :: mapRemove m k

/-- The pallet's storage: `UtxoStore` and `RewardTotal`. -/
structure ChainState where
  utxoStore : UtxoMap
  rewardTotal : Nat
deriving DecidableEq, Repr

/-- The pallet's `Error` enum. -/
inductive UtxoError where
  | NoInputs | NoOutputs | DuplicateInput | DuplicateOutput
  | ValueOverflow | MissingInputUtxo | InvalidSignature | ZeroValueOutput
  | OutputAlreadyExists | RewardError | OutputExceedsInput | OutputIndexOverflow
deriving DecidableEq, Repr

/-- The fields of `sp_runtime::transaction_validity::ValidTransaction` that
the pallet computes (`longevity` and `propagate` are constants and omitted).
`requires` and `provides` hold raw byte strings, as in the source
(`as_fixed_bytes().to_vec()`). -/
structure ValidTransaction where
  requires : List (List Nat)
  provides : List (List Nat)
  priority : Nat
deriving DecidableEq, Repr

deriving instance DecidableEq for Except

/-- The pallet's events. -/
inductive UtxoEvent where
  | TransactionSuccess (transaction : Transaction)
  | RewardsIssued (amount : Nat) (utxoHash : Nat)
  | RewardsWasted
deriving DecidableEq, Repr

/-- The input-validation loop of `validate_transaction`, in state-passing
style: every storage access receives and returns the state, so that the
absence of mutation is a provable property rather than a modelling choice.
Accumulates `total_input` and `missing_utxos`; a present UTXO must pass
signature verification and a `u128` checked add of its value. -/
def validateInputsST (vf : SigVerify) (simple : List Nat) :
    List TransactionInput → ChainState → Nat → List (List Nat) →
    Except UtxoError (Nat × List (List Nat)) × ChainState
  | [], s, total, missing => (.ok (total, missing), s)
  | inp :: rest, s, total, missing =>
    match mapGet s.utxoStore inp.outpoint with
    | some inputUtxo =>
      if vf inp.sigscript simple inputUtxo.pubkey then
        match checkedAdd total inputUtxo.value (2 ^ 128) with
        | some total1 => validateInputsST vf simple rest s total1 missing
        | none => (.error .ValueOverflow, s)
      else (.error .InvalidSignature, s)
    | none =>
      validateInputsST vf simple rest s total (missing ++ [encodeH256 inp.outpoint])

/-- The output-validation loop of `validate_transaction`, in state-passing
style.  Per output, in source order: the positivity check, the output hash,
the checked `u64` increment of the running index, the `contains_key`
pre-check, the checked `u128` accumulation of `total_output`, and the push
onto `provides`. -/
def validateOutputsST (h : HashFn) (t : Transaction) :
    List TransactionOutput → ChainState → Nat → Nat → List (List Nat) →
    Except UtxoError (Nat × List (List Nat)) × ChainState
  | [], s, _, totalOutput, provides => (.ok (totalOutput, provides), s)
  | out :: rest, s, outputIndex, totalOutput, provides =>
    if 0 < out.value then
      let hash := output_hash h t outputIndex
      match checkedAdd outputIndex 1 (2 ^ 64) with
      | some outputIndex1 =>
        if mapContains s.utxoStore hash then (.error .OutputAlreadyExists, s)
        else
          match checkedAdd totalOutput out.value (2 ^ 128) with
          | some totalOutput1 =>
            validateOutputsST h t rest s outputIndex1 totalOutput1
              (provides ++ [encodeH256 hash])
          | none => (.error .ValueOverflow, s)
      | none => (.error .OutputIndexOverflow, s)
    else (.error .ZeroValueOutput, s)

/-- `Pallet::validate_transaction` in state-passing style.  The duplicate
checks mirror the `BTreeMap` size comparisons: the map key is the full
input (outpoint and sigscript) respectively the full output, so the number
of distinct elements is compared with the list length.  When no input is
missing, the fee is `total_input - total_output` (guarded by the
`OutputExceedsInput` check) and is narrowed to `u64` by `reward as u64`. -/
def validate_transactionST (vf : SigVerify) (h : HashFn) (s : ChainState)
    (t : Transaction) : Except UtxoError ValidTransaction × ChainState :=
  if t.inputs.isEmpty then (.error .NoInputs, s)
  else if t.outputs.isEmpty then (.error .NoOutputs, s)
  else if t.inputs.dedup.length ≠ t.inputs.length then (.error .DuplicateInput, s)
  else if t.outputs.dedup.length ≠ t.outputs.length then (.error .DuplicateOutput, s)
  else
    let simple := get_simple_transaction t
    match validateInputsST vf simple t.inputs s 0 [] with
    | (.error e, s1) => (.error e, s1)
    | (.ok (totalInput, missing), s1) =>
      match validateOutputsST h t t.outputs s1 0 0 [] with
      | (.error e, s2) => (.error e, s2)
      | (.ok (totalOutput, provides), s2) =>
        if missing.isEmpty then
          if totalOutput ≤ totalInput then
            (.ok { requires := missing, provides := provides
                   priority := (totalInput - totalOutput) % 2 ^ 64 }, s2)
          else (.error .OutputExceedsInput, s2)
        else (.ok { requires := missing, provides := provides, priority := 0 }, s2)

/-- `Pallet::validate_transaction` as called by `spend`: the result part. -/
def validate_transaction (vf : SigVerify) (h : HashFn) (s : ChainState)
    (t : Transaction) : Except UtxoError ValidTransaction :=
  (validate_transactionST vf h s t).1

/-- The insertion loop of `update_storage`: per output, the output hash,
the checked `u64` index increment, then `UtxoStore::insert`. -/
def insertOutputs (h : HashFn) (t : Transaction) :
    UtxoMap → List TransactionOutput → Nat → Except UtxoError UtxoMap
  | m, [], _ => .ok m
  | m, out :: rest, index =>
    let hash := output_hash h t index
    match checkedAdd index 1 (2 ^ 64) with
    | some index1 => insertOutputs h t (mapInsert m hash out) rest index1
    | none => .error .OutputIndexOverflow

/-- `Pallet::update_storage`: the reward is added to `RewardTotal` with a
`u128` checked add, spent outpoints are removed, new outputs inserted. -/
def update_storage (h : HashFn) (s : ChainState) (t : Transaction)
    (reward : Nat) : Except UtxoError ChainState :=
  match checkedAdd s.rewardTotal reward (2 ^ 128) with
  | none => .error .RewardError
  | some newTotal =>
    let store1 := t.inputs.foldl (fun m inp => mapRemove m inp.outpoint) s.utxoStore
    match insertOutputs h t store1 t.outputs 0 with
    | .error e => .error e
    | .ok store2 => .ok { utxoStore := store2, rewardTotal := newTotal }

/-- The `spend` dispatchable (after the signed-origin check): validate,
require `requires` empty, then `update_storage(transaction, priority as Value)`. -/
def spend (vf : SigVerify) (h : HashFn) (s : ChainState) (t : Transaction) :
    Except UtxoError ChainState :=
  match validate_transaction vf h s t with
  | .error e => .error e
  | .ok v =>
    if v.requires.isEmpty then update_storage h s t v.priority
    else .error .MissingInputUtxo

/-- `Pallet::disperse_reward`.  The reward is
`RewardTotal::take() + Issuance(block_number)` with plain (unchecked) `u128`
addition, modelled by its release-mode wrap-around `% 2^128`.  The reward
UTXO is stored under `hash_of(&(&utxo, block_number.saturated_into::<u64>()))`,
i.e. the digest of `encode(utxo) ++ u64_le(height saturated to u64)`, and a
`RewardsIssued` event is emitted. -/
def disperse_reward (h : HashFn) (s : ChainState) (author : Nat)
    (height : Nat) (issuance : Nat) : ChainState × UtxoEvent :=
  let reward := (s.rewardTotal + issuance) % 2 ^ 128
  let utxo : TransactionOutput := { value := reward, pubkey := author }
  let hash := h (encodeOutput utxo ++ encodeU64 (min height (2 ^ 64 - 1)))
  ({ utxoStore := mapInsert s.utxoStore hash utxo, rewardTotal := 0 },
   .RewardsIssued reward hash)

/-- The pallet's `on_finalize` hook: disperse to a known author, else emit
`RewardsWasted` and leave the state untouched. -/
def on_finalize_utxo (h : HashFn) (s : ChainState) (author : Option Nat)
    (height : Nat) (issuance : Nat) : ChainState × UtxoEvent :=
  match author with
  | none => (s, .RewardsWasted)
  | some a => disperse_reward h s a height issuance

/-- The genesis build of the UTXO pallet: every configured output is stored
under `BlakeTwo256::hash_of(utxo)` with no check on its value. -/
def genesis_build_utxo (h : HashFn) (genesisUtxos : List TransactionOutput) : UtxoMap :=
  genesisUtxos.foldl (fun m u => mapInsert m (h (encodeOutput u)) u) []

/-! ### Concrete collaborators and fixtures for evaluation -/

/-- A signature verifier that accepts everything (the verifier is an
external collaborator; any instantiation is a legal environment). -/
def vfTrue : SigVerify := fun _ _ _ => true

/-- A degenerate hash oracle mapping every byte string to `0`. -/
def hash0 : HashFn := fun _ => 0

/-- Sum of the values of the UTXOs referenced by the transaction's inputs
in the given state (absent outpoints contribute nothing). -/
def inputSum (s : ChainState) (t : Transaction) : Nat :=
  (t.inputs.map fun i =>
    match mapGet s.utxoStore i.outpoint with
    | some u => u.value
    | none => 0).sum

/-- Sum of the transaction's output values. -/
def outputSum (t : Transaction) : Nat :=
  (t.outputs.map fun o => o.value).sum

/-- The `provides` list of a validation result, `[]` on error. -/
def providesOf (r : Except UtxoError ValidTransaction) : List (List Nat) :=
  match r with
  | .ok v => v.provides
  | .error _ => []

/-! ## Helper lemmas: difficulty retargeting -/

lemma damp_le {a g f : Nat} (h : a ≤ g) (hf : 1 ≤ f) : damp a g f ≤ g := by
  obtain ⟨k, rfl⟩ : ∃ k, f = k + 1 := ⟨f - 1, by omega⟩
  unfold damp
  have h1 : a + (k + 1 - 1) * g ≤ (k + 1) * g := by
    have := Nat.add_le_add_right h (k * g)
    simpa [Nat.succ_mul, Nat.add_comm] using this
  calc (a + (k + 1 - 1) * g) / (k + 1) ≤ (k + 1) * g / (k + 1) :=
        Nat.div_le_div_right h1
    _ = g := Nat.mul_div_cancel_left g (Nat.succ_pos k)

lemma damp_ge {a g f : Nat} (h : g ≤ a) (hf : 1 ≤ f) : g ≤ damp a g f := by
  obtain ⟨k, rfl⟩ : ∃ k, f = k + 1 := ⟨f - 1, by omega⟩
  unfold damp
  rw [Nat.le_div_iff_mul_le (Nat.succ_pos k)]
  have : g * (k + 1) = g + k * g := by ring
  rw [this]
  have h2 : k * g ≤ (k + 1 - 1) * g := by simp
  omega

lemma damp_pos {a g f : Nat} (ha : 1 ≤ a) (hg : 1 ≤ g) (hf : 1 ≤ f) :
    1 ≤ damp a g f := by
  unfold damp
  rw [Nat.le_div_iff_mul_le (by omega : 0 < f)]
  have h2 : f - 1 ≤ (f - 1) * g := Nat.le_mul_of_pos_right (f - 1) (by omega)
  omega

lemma clamp_le {a g c : Nat} (h : a ≤ g) : clamp a g c ≤ g := by
  unfold clamp
  exact max_le (Nat.div_le_self g c) (le_trans (min_le_left _ _) h)

lemma clamp_ge {a g c : Nat} (h : g ≤ a) (hc : 1 ≤ c) : g ≤ clamp a g c := by
  unfold clamp
  exact le_max_of_le_right (le_min h (Nat.le_mul_of_pos_right g (by omega)))

lemma clamp_pos {a g c : Nat} (ha : 1 ≤ a) (hg : 1 ≤ g) (hc : 1 ≤ c) :
    1 ≤ clamp a g c := by
  unfold clamp
  exact le_max_of_le_right (le_min ha (Nat.mul_pos hg (by omega)))

lemma const_difficulty_sum {d : Nat} {data : List DifficultyAndTimestamp}
    (hlen : data.length = 60) (hd : ∀ x ∈ data, x.difficulty = d) :
    (data.map fun x => x.difficulty).sum = 60 * d := by
  have hrep : data.map (fun x => x.difficulty) = List.replicate 60 d := by
    refine List.eq_replicate_iff.2 ⟨by simp [hlen], ?_⟩
    intro b hb
    obtain ⟨x, hx, rfl⟩ := List.mem_map.1 hb
    exact hd x hx
  rw [hrep, List.sum_replicate, smul_eq_mul]

lemma update_difficulty_ge (cfg : DiffConfig) (d : Nat)
    (data : List DifficultyAndTimestamp)
    (hlen : data.length = 60) (hd : ∀ x ∈ data, x.difficulty = d)
    (hmin : cfg.minDifficulty ≤ d) (hmax : d ≤ cfg.maxDifficulty)
    (hB : 1 ≤ cfg.targetBlockTime) (hD : 1 ≤ cfg.dampFactor)
    (hC : 1 ≤ cfg.clampFactor)
    (ht : sumDeltas data < 60 * cfg.targetBlockTime) :
    d ≤ update_difficulty cfg data := by
  simp only [update_difficulty, DIFFICULTY_ADJUST_WINDOW]
  rw [const_difficulty_sum hlen hd]
  have hWpos : 0 < 60 * cfg.targetBlockTime := by omega
  have hds : ¬ (60 * d < cfg.minDifficulty) := by omega
  rw [if_neg hds]
  have htsd_le : (if sumDeltas data = 0 then 1 else sumDeltas data) ≤
      60 * cfg.targetBlockTime := by split <;> omega
  have htsd_pos : 1 ≤ (if sumDeltas data = 0 then 1 else sumDeltas data) := by
    split <;> omega
  have hadj_le : clamp (damp (if sumDeltas data = 0 then 1 else sumDeltas data)
      (60 * cfg.targetBlockTime) cfg.dampFactor)
      (60 * cfg.targetBlockTime) cfg.clampFactor ≤ 60 * cfg.targetBlockTime :=
    clamp_le (damp_le htsd_le hD)
  have hadj_pos : 1 ≤ clamp (damp (if sumDeltas data = 0 then 1 else sumDeltas data)
      (60 * cfg.targetBlockTime) cfg.dampFactor)
      (60 * cfg.targetBlockTime) cfg.clampFactor :=
    clamp_pos (damp_pos htsd_pos (by omega) hD) (by omega) hC
  refine le_min hmax (le_max_of_le_right ?_)
  have hx : 60 * cfg.targetBlockTime * d /
      (60 * cfg.targetBlockTime) ≤ 60 * d * cfg.targetBlockTime /
      clamp (damp (if sumDeltas data = 0 then 1 else sumDeltas data)
        (60 * cfg.targetBlockTime) cfg.dampFactor)
        (60 * cfg.targetBlockTime) cfg.clampFactor := by
    have heq : 60 * cfg.targetBlockTime * d = 60 * d * cfg.targetBlockTime := by ring
    rw [heq]
    exact Nat.div_le_div_left hadj_le hadj_pos
  calc d = 60 * cfg.targetBlockTime * d / (60 * cfg.targetBlockTime) :=
        (Nat.mul_div_cancel_left d hWpos).symm
    _ ≤ _ := hx

lemma update_difficulty_le (cfg : DiffConfig) (d : Nat)
    (data : List DifficultyAndTimestamp)
    (hlen : data.length = 60) (hd : ∀ x ∈ data, x.difficulty = d)
    (hmin : cfg.minDifficulty ≤ d)
    (hB : 1 ≤ cfg.targetBlockTime) (hD : 1 ≤ cfg.dampFactor)
    (hC : 1 ≤ cfg.clampFactor)
    (ht : 60 * cfg.targetBlockTime < sumDeltas data) :
    update_difficulty cfg data ≤ d := by
  simp only [update_difficulty, DIFFICULTY_ADJUST_WINDOW]
  rw [const_difficulty_sum hlen hd]
  have hWpos : 0 < 60 * cfg.targetBlockTime := by omega
  have hds : ¬ (60 * d < cfg.minDifficulty) := by omega
  rw [if_neg hds]
  have htsd_ge : 60 * cfg.targetBlockTime ≤
      (if sumDeltas data = 0 then 1 else sumDeltas data) := by split <;> omega
  have hadj_ge : 60 * cfg.targetBlockTime ≤
      clamp (damp (if sumDeltas data = 0 then 1 else sumDeltas data)
        (60 * cfg.targetBlockTime) cfg.dampFactor)
        (60 * cfg.targetBlockTime) cfg.clampFactor :=
    clamp_ge (damp_ge htsd_ge hD) hC
  refine le_trans (min_le_right _ _) (max_le hmin ?_)
  have hx : 60 * d * cfg.targetBlockTime /
      clamp (damp (if sumDeltas data = 0 then 1 else sumDeltas data)
        (60 * cfg.targetBlockTime) cfg.dampFactor)
        (60 * cfg.targetBlockTime) cfg.clampFactor ≤
      60 * d * cfg.targetBlockTime / (60 * cfg.targetBlockTime) :=
    Nat.div_le_div_left hadj_ge hWpos
  refine le_trans hx ?_
  have heq : 60 * d * cfg.targetBlockTime = 60 * cfg.targetBlockTime * d := by ring
  rw [heq, Nat.mul_div_cancel_left d hWpos]

lemma eqWindow_length (d t B n : Nat) : (eqWindow d t B n).length = n := by
  induction n generalizing t with
  | zero => rfl
  | succ n ih => simp [eqWindow, ih]

lemma eqWindow_difficulty (d t B n : Nat) :
    ∀ x ∈ eqWindow d t B n, x.difficulty = d := by
  induction n generalizing t with
  | zero => intro x hx; simp [eqWindow] at hx
  | succ n ih =>
    intro x hx
    rcases (by simpa [eqWindow] using hx :
        x = ⟨d, t⟩ ∨ x ∈ eqWindow d (t + B) B n) with rfl | hx2
    · rfl
    · exact ih (t + B) x hx2

lemma sumDeltas_eqWindow (d t B n : Nat) :
    sumDeltas (eqWindow d t B (n + 1)) = n * B := by
  induction n generalizing t with
  | zero => simp [eqWindow, sumDeltas]
  | succ n ih =>
    show sumDeltas (⟨d, t⟩ :: ⟨d, t + B⟩ :: eqWindow d (t + B + B) B n) =
      (n + 1) * B
    have hstep : sumDeltas (⟨d, t⟩ :: ⟨d, t + B⟩ :: eqWindow d (t + B + B) B n) =
        (t + B - t) + sumDeltas (eqWindow d (t + B) B (n + 1)) := rfl
    rw [hstep, ih (t + B), Nat.add_sub_cancel_left, Nat.succ_mul, Nat.add_comm]

/-! ## Claims C4, C5, C7: difficulty retargeting -/

/-- C4 (amended): with the sample window holding W = 60 samples whose
consecutive timestamps differ by exactly the target block time B and which
all carry the same difficulty d with MIN ≤ d ≤ MAX, the retarget step
writes a difficulty d' with d ≤ d'; it does not write exactly d in general,
because the summed timestamp delta covers only the 59 gaps between the 60
stored samples while the target window is 60·B. -/
theorem c4_equilibrium_retarget_ge (cfg : DiffConfig) (d t : Nat)
    (hmin : cfg.minDifficulty ≤ d) (hmax : d ≤ cfg.maxDifficulty)
    (hB : 1 ≤ cfg.targetBlockTime) (hD : 1 ≤ cfg.dampFactor)
    (hC : 1 ≤ cfg.clampFactor) :
    d ≤ update_difficulty cfg (eqWindow d t cfg.targetBlockTime 60) := by
  refine update_difficulty_ge cfg d _ (eqWindow_length _ _ _ _)
    (eqWindow_difficulty _ _ _ _) hmin hmax hB hD hC ?_
  have h59 : sumDeltas (eqWindow d t cfg.targetBlockTime 60) =
      59 * cfg.targetBlockTime := sumDeltas_eqWindow d t cfg.targetBlockTime 59
  omega

/-- C4 witness: the amended theorem instantiated at the mock-runtime
configuration (B = 10, D = 2, C = 2, MIN = 1, MAX = u128::MAX), d = 1000. -/
theorem c4_equilibrium_retarget_ge_witness :
    testDiffConfig.minDifficulty ≤ 1000 ∧
    1000 ≤ testDiffConfig.maxDifficulty ∧
    1000 ≤ update_difficulty testDiffConfig (eqWindow 1000 0 testDiffConfig.targetBlockTime 60) :=
  ⟨by decide, by decide,
    c4_equilibrium_retarget_ge testDiffConfig 1000 0 (by decide) (by decide)
      (by decide) (by decide) (by decide)⟩

/-- C4 counterexample: 60 samples at difficulty 1000, spaced exactly
B = 10 apart, under the repository's own mock configuration.  The claim
(and the spec's seed scenario 7) expects the retarget step to write 1000;
the code writes 1008. -/
theorem c4_equilibrium_counterexample :
    testDiffConfig.minDifficulty ≤ 1000 ∧
    1000 ≤ testDiffConfig.maxDifficulty ∧
    update_difficulty testDiffConfig (eqWindow 1000 0 testDiffConfig.targetBlockTime 60) = 1008 ∧
    update_difficulty testDiffConfig (eqWindow 1000 0 testDiffConfig.targetBlockTime 60) ≠ 1000 := by
  refine ⟨by decide, by decide, by decide, by decide⟩

/-- C5 (amended): after every retarget step the written difficulty
satisfies MIN ≤ d' ≤ MAX (for a well-formed configuration, MIN ≤ MAX and
positive block time, damp and clamp factors).  Genesis initialization,
however, stores the configured initial difficulty unchecked, so the bound
holds at genesis only when the configured value already satisfies it. -/
theorem c5_difficulty_bounds (cfg : DiffConfig)
    (data : List DifficultyAndTimestamp) (init : Nat)
    (hMM : cfg.minDifficulty ≤ cfg.maxDifficulty)
    (hB : 1 ≤ cfg.targetBlockTime) (hD : 1 ≤ cfg.dampFactor)
    (hC : 1 ≤ cfg.clampFactor) :
    (cfg.minDifficulty ≤ update_difficulty cfg data ∧
      update_difficulty cfg data ≤ cfg.maxDifficulty) ∧
    (cfg.minDifficulty ≤ init → init ≤ cfg.maxDifficulty →
      cfg.minDifficulty ≤ difficulty_genesis_build init ∧
        difficulty_genesis_build init ≤ cfg.maxDifficulty) := by
  constructor
  · simp only [update_difficulty, DIFFICULTY_ADJUST_WINDOW]
    exact ⟨le_min hMM (le_max_left _ _), min_le_left _ _⟩
  · intro h1 h2
    exact ⟨h1, h2⟩

/-- C5 witness: bounds after a retarget step from the empty window under
the mock configuration, and at a genesis value inside the bounds. -/
theorem c5_difficulty_bounds_witness :
    (testDiffConfig.minDifficulty ≤ update_difficulty testDiffConfig [] ∧
      update_difficulty testDiffConfig [] ≤ testDiffConfig.maxDifficulty) ∧
    (testDiffConfig.minDifficulty ≤ difficulty_genesis_build 5 ∧
      difficulty_genesis_build 5 ≤ testDiffConfig.maxDifficulty) :=
  ⟨(c5_difficulty_bounds testDiffConfig [] 5 (by decide) (by decide) (by decide)
      (by decide)).1,
   (c5_difficulty_bounds testDiffConfig [] 5 (by decide) (by decide) (by decide)
      (by decide)).2 (by decide) (by decide)⟩

/-- C5 counterexample: genesis config with initial difficulty 0 under the
mock configuration (MIN = 1).  Immediately after genesis initialization
CurrentDifficulty is 0, below MIN: the claimed "at all times including
immediately after genesis initialization" fails. -/
theorem c5_genesis_counterexample :
    difficulty_genesis_build 0 = 0 ∧
    ¬ (testDiffConfig.minDifficulty ≤ difficulty_genesis_build 0) := by decide

/-- C7: retarget monotonicity over a full window of 60 samples all at
difficulty d (a difficulty value, so within the spec's data-model bounds
MIN ≤ d ≤ MAX): a summed timestamp delta below W·B retargets to d' ≥ d, one
above W·B retargets to d' ≤ d. -/
theorem c7_retarget_monotonicity (cfg : DiffConfig) (d : Nat)
    (data : List DifficultyAndTimestamp)
    (hlen : data.length = 60) (hd : ∀ x ∈ data, x.difficulty = d)
    (hmin : cfg.minDifficulty ≤ d) (hmax : d ≤ cfg.maxDifficulty)
    (hB : 1 ≤ cfg.targetBlockTime) (hD : 1 ≤ cfg.dampFactor)
    (hC : 1 ≤ cfg.clampFactor) :
    (sumDeltas data < 60 * cfg.targetBlockTime →
      d ≤ update_difficulty cfg data) ∧
    (60 * cfg.targetBlockTime < sumDeltas data →
      update_difficulty cfg data ≤ d) :=
  ⟨fun ht => update_difficulty_ge cfg d data hlen hd hmin hmax hB hD hC ht,
   fun ht => update_difficulty_le cfg d data hlen hd hmin hB hD hC ht⟩

/-- C7 witness: a window of 60 samples at difficulty 1000 with all
timestamps equal (summed delta 0 < 600) retargets upward. -/
theorem c7_retarget_monotonicity_witness :
    sumDeltas (eqWindow 1000 5 0 60) < 60 * testDiffConfig.targetBlockTime ∧
    1000 ≤ update_difficulty testDiffConfig (eqWindow 1000 5 0 60) :=
  ⟨by decide,
    (c7_retarget_monotonicity testDiffConfig 1000 (eqWindow 1000 5 0 60)
      (by decide) (by decide) (by decide) (by decide) (by decide) (by decide)
      (by decide)).1 (by decide)⟩

/-! ## Helper lemmas: UTXO pallet -/

lemma checkedAdd_eq_some {a b bound x : Nat} (h : checkedAdd a b bound = some x) :
    x = a + b ∧ a + b < bound := by
  unfold checkedAdd at h
  split at h
  · exact ⟨(Option.some.inj h).symm, by assumption⟩
  · exact absurd h (by simp)

lemma validateInputsST_state (vf : SigVerify) (simple : List Nat) :
    ∀ (ins : List TransactionInput) (s : ChainState) (total : Nat)
      (missing : List (List Nat)),
      (validateInputsST vf simple ins s total missing).2 = s := by
  intro ins
  induction ins with
  | nil => intro s total missing; rfl
  | cons inp rest ih =>
    intro s total missing
    simp only [validateInputsST]
    split
    · split
      · split
        · exact ih s _ missing
        · rfl
      · rfl
    · exact ih s total _

lemma validateOutputsST_state (h : HashFn) (t : Transaction) :
    ∀ (outs : List TransactionOutput) (s : ChainState) (idx total : Nat)
      (provides : List (List Nat)),
      (validateOutputsST h t outs s idx total provides).2 = s := by
  intro outs
  induction outs with
  | nil => intro s idx total provides; rfl
  | cons out rest ih =>
    intro s idx total provides
    simp only [validateOutputsST]
    split
    · split
      · split
        · rfl
        · split
          · exact ih s _ _ _
          · rfl
      · rfl
    · rfl

lemma validateInputsST_ok (vf : SigVerify) (simple : List Nat) :
    ∀ (ins : List TransactionInput) (s : ChainState) (total : Nat)
      (missing : List (List Nat)) (total' : Nat) (missing' : List (List Nat))
      (s' : ChainState),
      validateInputsST vf simple ins s total missing = (.ok (total', missing'), s') →
      ∃ extra, missing' = missing ++ extra ∧
        (extra = [] → total' = total +
          (ins.map fun i =>
            match mapGet s.utxoStore i.outpoint with
            | some u => u.value
            | none => 0).sum) := by
  intro ins
  induction ins with
  | nil =>
    intro s total missing total' missing' s' hrun
    simp only [validateInputsST, Prod.mk.injEq, Except.ok.injEq] at hrun
    obtain ⟨⟨rfl, rfl⟩, rfl⟩ := hrun
    exact ⟨[], by simp, fun _ => by simp⟩
  | cons inp rest ih =>
    intro s total missing total' missing' s' hrun
    simp only [validateInputsST] at hrun
    split at hrun
    · rename_i u hget
      split at hrun
      · split at hrun
        · rename_i total1 hca
          obtain ⟨extra, hmiss, htot⟩ := ih s total1 missing total' missing' s' hrun
          refine ⟨extra, hmiss, fun hx => ?_⟩
          have h1 := htot hx
          obtain ⟨rfl, _⟩ := checkedAdd_eq_some hca
          simp only [List.map_cons, List.sum_cons, hget]
          omega
        · simp at hrun
      · simp at hrun
    · rename_i hget
      obtain ⟨extra2, hmiss, _⟩ :=
        ih s total (missing ++ [encodeH256 inp.outpoint]) total' missing' s' hrun
      refine ⟨encodeH256 inp.outpoint :: extra2, by simp [hmiss], fun hx => ?_⟩
      exact absurd hx (by simp)

lemma validateOutputsST_ok (h : HashFn) (t : Transaction) :
    ∀ (outs : List TransactionOutput) (s : ChainState) (idx total : Nat)
      (provides : List (List Nat)) (total' : Nat) (provides' : List (List Nat))
      (s' : ChainState),
      validateOutputsST h t outs s idx total provides = (.ok (total', provides'), s') →
      provides' = provides ++
        (List.range' idx outs.length).map (fun i => encodeH256 (output_hash h t i)) ∧
      total' = total + (outs.map fun o => o.value).sum ∧
      ∀ o ∈ outs, 0 < o.value := by
  intro outs
  induction outs with
  | nil =>
    intro s idx total provides total' provides' s' hrun
    simp only [validateOutputsST, Prod.mk.injEq, Except.ok.injEq] at hrun
    obtain ⟨⟨rfl, rfl⟩, rfl⟩ := hrun
    exact ⟨by simp, by simp, by simp⟩
  | cons out rest ih =>
    intro s idx total provides total' provides' s' hrun
    simp only [validateOutputsST] at hrun
    split at hrun
    · rename_i hpos
      split at hrun
      · rename_i idx1 hca
        split at hrun
        · simp at hrun
        · split at hrun
          · rename_i total1 hca2
            obtain ⟨hprov, htot, hposrest⟩ :=
              ih s idx1 total1 (provides ++ [encodeH256 (output_hash h t idx)])
                total' provides' s' hrun
            obtain ⟨rfl, _⟩ := checkedAdd_eq_some hca
            obtain ⟨rfl, _⟩ := checkedAdd_eq_some hca2
            refine ⟨?_, ?_, ?_⟩
            · rw [hprov, List.length_cons, List.range'_succ, List.map_cons]
              simp
            · simp only [List.map_cons, List.sum_cons]
              omega
            · intro o ho
              rcases List.mem_cons.1 ho with rfl | ho2
              · exact hpos
              · exact hposrest o ho2
          · simp at hrun
      · simp at hrun
    · simp at hrun

lemma validate_transactionST_ok (vf : SigVerify) (h : HashFn) (s : ChainState)
    (t : Transaction) (v : ValidTransaction) (s2 : ChainState)
    (hrun : validate_transactionST vf h s t = (.ok v, s2)) :
    s2 = s ∧
    v.provides =
      (List.range' 0 t.outputs.length).map (fun i => encodeH256 (output_hash h t i)) ∧
    (∀ o ∈ t.outputs, 0 < o.value) ∧
    (v.requires = [] →
      outputSum t ≤ inputSum s t ∧
      v.priority = (inputSum s t - outputSum t) % 2 ^ 64) := by
  simp only [validate_transactionST] at hrun
  split at hrun
  · simp at hrun
  · split at hrun
    · simp at hrun
    · split at hrun
      · simp at hrun
      · split at hrun
        · simp at hrun
        · split at hrun
          · simp at hrun
          · rename_i totalInput missing s1 heq1
            have hs1 : s1 = s := by
              have hst := validateInputsST_state vf (get_simple_transaction t)
                t.inputs s 0 []
              rw [heq1] at hst
              exact hst
            rw [hs1] at heq1 hrun
            split at hrun
            · simp at hrun
            · rename_i totalOutput provides s2' heq2
              have hs2 : s2' = s := by
                have hst := validateOutputsST_state h t t.outputs s 0 0 []
                rw [heq2] at hst
                exact hst
              rw [hs2] at heq2 hrun
              obtain ⟨hprov, htot, hpos⟩ :=
                validateOutputsST_ok h t t.outputs s 0 0 [] totalOutput provides s heq2
              obtain ⟨extra, hmiss, htotin⟩ :=
                validateInputsST_ok vf (get_simple_transaction t) t.inputs s 0 []
                  totalInput missing s heq1
              simp only [List.nil_append] at hmiss
              split at hrun
              · rename_i hempty
                have hmem : missing = [] := by simpa using hempty
                have hex : extra = [] := hmiss.symm.trans hmem
                split at hrun
                · rename_i hle
                  injection hrun with h1 h2
                  injection h1 with h3
                  subst h3
                  subst h2
                  have hin : totalInput = inputSum s t := by
                    have := htotin hex
                    simpa [inputSum] using this
                  have hout : totalOutput = outputSum t := by
                    simpa [outputSum] using htot
                  refine ⟨rfl, by simpa using hprov, hpos, fun _ => ?_⟩
                  subst hin
                  subst hout
                  exact ⟨by simpa [outputSum, inputSum] using hle, rfl⟩
                · simp at hrun
              · rename_i hnonempty
                injection hrun with h1 h2
                injection h1 with h3
                subst h3
                subst h2
                refine ⟨rfl, by simpa using hprov, hpos, fun hreq => ?_⟩
                exact absurd hreq (by simpa using hnonempty)

lemma validate_transactionST_state (vf : SigVerify) (h : HashFn)
    (s : ChainState) (t : Transaction) :
    (validate_transactionST vf h s t).2 = s := by
  simp only [validate_transactionST]
  split
  · rfl
  · split
    · rfl
    · split
      · rfl
      · split
        · rfl
        · split
          · rename_i e s1 heq1
            have hst := validateInputsST_state vf (get_simple_transaction t)
              t.inputs s 0 []
            rw [heq1] at hst
            exact hst
          · rename_i totalInput missing s1 heq1
            have hs1 : s1 = s := by
              have hst := validateInputsST_state vf (get_simple_transaction t)
                t.inputs s 0 []
              rw [heq1] at hst
              exact hst
            split
            · rename_i e s2' heq2
              have hst := validateOutputsST_state h t t.outputs s1 0 0 []
              rw [heq2] at hst
              exact hst.trans hs1
            · rename_i totalOutput provides s2' heq2
              have hs2 : s2' = s1 := by
                have hst := validateOutputsST_state h t t.outputs s1 0 0 []
                rw [heq2] at hst
                exact hst
              have : s2' = s := hs2.trans hs1
              split
              · split
                · exact this
                · exact this
              · exact this

lemma mapGet_mapInsert_self (m : UtxoMap) (k : Nat) (v : TransactionOutput) :
    mapGet (mapInsert m k v) k = some v := by
  simp [mapInsert, mapGet]

lemma mem_mapRemove {m : UtxoMap} {k : Nat} {kv : Nat × TransactionOutput}
    (hm : kv ∈ mapRemove m k) : kv ∈ m :=
  (List.mem_filter.1 hm).1

lemma mem_mapInsert {m : UtxoMap} {k : Nat} {v : TransactionOutput}
    {kv : Nat × TransactionOutput} (hm : kv ∈ mapInsert m k v) :
    kv = (k, v) ∨ kv ∈ m := by
  rcases List.mem_cons.1 hm with h1 | h2
  · exact Or.inl h1
  · exact Or.inr (mem_mapRemove h2)

lemma foldl_mapRemove_mem {ins : List TransactionInput} :
    ∀ {m : UtxoMap} {kv : Nat × TransactionOutput},
      kv ∈ ins.foldl (fun m inp => mapRemove m inp.outpoint) m → kv ∈ m := by
  induction ins with
  | nil => intro m kv hm; exact hm
  | cons inp rest ih => intro m kv hm; exact mem_mapRemove (ih hm)

lemma insertOutputs_eq (h : HashFn) (t : Transaction) :
    ∀ (outs : List TransactionOutput) (m : UtxoMap) (idx : Nat),
      idx + outs.length < 2 ^ 64 →
      insertOutputs h t m outs idx =
        .ok ((((List.range' idx outs.length).map (output_hash h t)).zip outs).foldl
          (fun acc p => mapInsert acc p.1 p.2) m) := by
  intro outs
  induction outs with
  | nil => intro m idx hb; simp [insertOutputs]
  | cons out rest ih =>
    intro m idx hb
    have hca : checkedAdd idx 1 (2 ^ 64) = some (idx + 1) := by
      unfold checkedAdd
      rw [if_pos (by simp at hb; omega)]
    simp only [insertOutputs, hca, List.length_cons, List.range'_succ,
      List.map_cons, List.zip_cons_cons, List.foldl_cons]
    exact ih (mapInsert m (output_hash h t idx) out) (idx + 1)
      (by simp at hb ⊢; omega)

lemma insertOutputs_pos (h : HashFn) (t : Transaction) :
    ∀ (outs : List TransactionOutput) (m : UtxoMap) (idx : Nat) (m' : UtxoMap),
      (∀ kv ∈ m, 0 < kv.2.value) → (∀ o ∈ outs, 0 < o.value) →
      insertOutputs h t m outs idx = .ok m' →
      ∀ kv ∈ m', 0 < kv.2.value := by
  intro outs
  induction outs with
  | nil =>
    intro m idx m' hmpos hopos hrun
    obtain rfl : m = m' := by simpa [insertOutputs] using hrun
    exact hmpos
  | cons out rest ih =>
    intro m idx m' hmpos hopos hrun
    simp only [insertOutputs] at hrun
    split at hrun
    · refine ih (mapInsert m (output_hash h t idx) out) _ m' ?_ ?_ hrun
      · intro kv hkv
        rcases mem_mapInsert hkv with rfl | h2
        · exact hopos out (by simp)
        · exact hmpos kv h2
      · intro o ho
        exact hopos o (by simp [ho])
    · simp at hrun

lemma update_storage_ok (h : HashFn) (s : ChainState) (t : Transaction)
    (reward : Nat) (s2 : ChainState)
    (hrun : update_storage h s t reward = .ok s2) :
    s2.rewardTotal = s.rewardTotal + reward ∧
    insertOutputs h t
      (t.inputs.foldl (fun m inp => mapRemove m inp.outpoint) s.utxoStore)
      t.outputs 0 = .ok s2.utxoStore := by
  simp only [update_storage] at hrun
  split at hrun
  · simp at hrun
  · rename_i newTotal hca
    split at hrun
    · simp at hrun
    · rename_i store2 heq
      injection hrun with h1
      subst h1
      obtain ⟨rfl, _⟩ := checkedAdd_eq_some hca
      exact ⟨rfl, heq⟩

lemma validateInputsST_no_oio (vf : SigVerify) (simple : List Nat) :
    ∀ (ins : List TransactionInput) (s : ChainState) (total : Nat)
      (missing : List (List Nat)),
      (validateInputsST vf simple ins s total missing).1 ≠
        .error .OutputIndexOverflow := by
  intro ins
  induction ins with
  | nil => intro s total missing; simp [validateInputsST]
  | cons inp rest ih =>
    intro s total missing
    simp only [validateInputsST]
    split
    · split
      · split
        · exact ih _ _ _
        · simp
      · simp
    · exact ih _ _ _

lemma validateOutputsST_no_oio (h : HashFn) (t : Transaction) :
    ∀ (outs : List TransactionOutput) (s : ChainState) (idx total : Nat)
      (provides : List (List Nat)),
      idx + outs.length < 2 ^ 64 →
      (validateOutputsST h t outs s idx total provides).1 ≠
        .error .OutputIndexOverflow := by
  intro outs
  induction outs with
  | nil => intro s idx total provides hb; simp [validateOutputsST]
  | cons out rest ih =>
    intro s idx total provides hb
    have hca : checkedAdd idx 1 (2 ^ 64) = some (idx + 1) := by
      unfold checkedAdd
      rw [if_pos (by simp at hb; omega)]
    simp only [validateOutputsST, hca]
    split
    · split
      · simp
      · split
        · exact ih _ _ _ _ (by simp at hb ⊢; omega)
        · simp
    · simp

/-! ## Claims C1, C2, C3, C6, C8, C9, C10: UTXO pallet -/

/-- C9: `validate_transaction` mutates no state.  The validation pipeline is
embedded in state-passing style, every storage access threading the state;
for every verifier, hash oracle, starting state and transaction, the state
component of the result — covering `UtxoStore` and `RewardTotal` — equals
the starting state, whether validation returns a descriptor or an error. -/
theorem c9_validate_transaction_pure (vf : SigVerify) (h : HashFn)
    (s : ChainState) (t : Transaction) :
    (validate_transactionST vf h s t).2 = s :=
  validate_transactionST_state vf h s t

/-- A hash oracle that reduces the little-endian value of the byte string
modulo a 255-bit prime; it fits `H256` and separates the byte strings used
in the counterexamples. -/
def hashMod : HashFn := fun bs => fromLE bs % (2 ^ 255 - 19)

/-- Fixture: a state holding one UTXO of value 100 under key 5. -/
def sEx : ChainState := ⟨[(5, ⟨100, 7⟩)], 0⟩

/-- Fixture: a transaction spending outpoint 5 into one output of value 40. -/
def txEx : Transaction := ⟨[⟨5, 3⟩], [⟨40, 8⟩]⟩

/-- Fixture: the state after `spend vfTrue hash0 sEx txEx`. -/
def sExResult : ChainState := ⟨[(0, ⟨40, 8⟩)], 60⟩

/-- Fixture: the validity descriptor returned for `txEx` on `sEx`. -/
def vEx : ValidTransaction := ⟨[], [encodeH256 0], 60⟩

/-- C1 (amended): the output hash used to insert and pre-check new UTXOs at
index i is `H( compact(len(encode(T))) || encode(T) || encode_u64_le(i) )`
where `T` is the full transaction, with its input sigscripts included (not
`strip_sigs(T)`; the compact length prefix comes from SCALE-encoding the
pair `(&tx.encode(), index)`).  The theorem characterizes the `provides`
hashes of validation and the keys inserted by `update_storage`'s loop as
exactly `output_hash` at indices `0..outputs.len()`. -/
theorem c1_output_hash_full_encoding (vf : SigVerify) (h : HashFn)
    (s : ChainState) (t : Transaction) (v : ValidTransaction) (m : UtxoMap)
    (hok : validate_transaction vf h s t = .ok v)
    (hb : t.outputs.length < 2 ^ 64) :
    v.provides =
      (List.range' 0 t.outputs.length).map (fun i => encodeH256 (output_hash h t i)) ∧
    insertOutputs h t m t.outputs 0 =
      .ok ((((List.range' 0 t.outputs.length).map (output_hash h t)).zip
        t.outputs).foldl (fun acc p => mapInsert acc p.1 p.2) m) := by
  have hpair : validate_transactionST vf h s t = (.ok v, s) := by
    rw [Prod.ext_iff]
    exact ⟨hok, validate_transactionST_state vf h s t⟩
  obtain ⟨_, hprov, _, _⟩ := validate_transactionST_ok vf h s t v s hpair
  exact ⟨hprov, insertOutputs_eq h t t.outputs m 0 (by omega)⟩

/-- C1 witness: the amended theorem applied to a concrete successful
validation. -/
theorem c1_output_hash_full_encoding_witness :
    vEx.provides =
      (List.range' 0 txEx.outputs.length).map
        (fun i => encodeH256 (output_hash hash0 txEx i)) ∧
    insertOutputs hash0 txEx [] txEx.outputs 0 =
      .ok ((((List.range' 0 txEx.outputs.length).map (output_hash hash0 txEx)).zip
        txEx.outputs).foldl (fun acc p => mapInsert acc p.1 p.2) []) :=
  c1_output_hash_full_encoding vfTrue hash0 sEx txEx vEx [] (by decide) (by decide)

/-- Fixtures for the C1 counterexample: two transactions that differ only in
the sigscript of their single input. -/
def txC1a : Transaction := ⟨[⟨5, 1⟩], [⟨50, 9⟩]⟩

def txC1b : Transaction := ⟨[⟨5, 2⟩], [⟨50, 9⟩]⟩

set_option maxRecDepth 4000 in
/-- C1 counterexample: `txC1a` and `txC1b` differ only in input sigscripts
(their sigscript-stripped forms coincide), yet validation — with the hash
oracle `hashMod` — reports different `provides` hashes for the output at
index 0, and the digested bytes are not `encode(strip_sigs(T)) || u64_le(i)`:
the hash is not sigscript-independent as the claim states. -/
theorem c1_sigscript_changes_output_hash :
    stripSigs txC1a = stripSigs txC1b ∧
    txC1a ≠ txC1b ∧
    providesOf (validate_transaction vfTrue hashMod sEx txC1a) ≠
      providesOf (validate_transaction vfTrue hashMod sEx txC1b) ∧
    output_hash fromLE txC1a 0 ≠
      fromLE (encodeTransaction (stripSigs txC1a) ++ encodeU64 0) := by
  refine ⟨by decide, by decide, by decide, by decide⟩

/-- C2 (amended): for every transaction that validates with an empty
`requires` set and is then applied, the fee `Σ inputs − Σ outputs` is
non-negative, and `RewardTotal` grows by the fee reduced modulo `2^64` —
the fee is narrowed through the `u64` `priority` field (`reward as u64`)
before being added back as a `u128`; the growth equals the fee exactly
whenever the fee is below `2^64`. -/
theorem c2_conservation_mod64 (vf : SigVerify) (h : HashFn) (s : ChainState)
    (t : Transaction) (s2 : ChainState) (hok : spend vf h s t = .ok s2) :
    outputSum t ≤ inputSum s t ∧
    s2.rewardTotal = s.rewardTotal + (inputSum s t - outputSum t) % 2 ^ 64 := by
  simp only [spend] at hok
  split at hok
  · simp at hok
  · rename_i v heq
    split at hok
    · rename_i hreq
      have hpair : validate_transactionST vf h s t = (.ok v, s) := by
        rw [Prod.ext_iff]
        exact ⟨heq, validate_transactionST_state vf h s t⟩
      obtain ⟨_, _, _, himp⟩ := validate_transactionST_ok vf h s t v s hpair
      obtain ⟨hle, hpri⟩ := himp (by simpa using hreq)
      obtain ⟨hrt, _⟩ := update_storage_ok h s t v.priority s2 hok
      exact ⟨hle, by rw [hrt, hpri]⟩
    · simp at hok

/-- C2 witness: the amended theorem applied to a concrete spend with fee 60. -/
theorem c2_conservation_mod64_witness :
    outputSum txEx ≤ inputSum sEx txEx ∧
    sExResult.rewardTotal =
      sEx.rewardTotal + (inputSum sEx txEx - outputSum txEx) % 2 ^ 64 :=
  c2_conservation_mod64 vfTrue hash0 sEx txEx sExResult (by decide)

/-- Fixtures for the C2 counterexample: a UTXO worth `2^64 + 1` spent into
an output of value 1, so the fee is `2^64`. -/
def sBig : ChainState := ⟨[(5, ⟨2 ^ 64 + 1, 7⟩)], 0⟩

def txBig : Transaction := ⟨[⟨5, 3⟩], [⟨1, 8⟩]⟩

/-- C2 counterexample: the fee is `2^64`, the spend succeeds, but
`RewardTotal` does not grow by the fee — the `u64` narrowing of `priority`
truncates `2^64` to 0. -/
theorem c2_fee_truncation_counterexample :
    inputSum sBig txBig - outputSum txBig = 2 ^ 64 ∧
    spend vfTrue hash0 sBig txBig = .ok ⟨[(0, ⟨1, 8⟩)], 0⟩ ∧
    (ChainState.mk [(0, ⟨1, 8⟩)] 0).rewardTotal ≠
      sBig.rewardTotal + (inputSum sBig txBig - outputSum txBig) := by
  refine ⟨by decide, by decide, by decide⟩

/-- Fixtures for C3: a state with a single UTXO of value 50 under key 5 and
a transaction spending it twice through two inputs that share the outpoint
but differ in sigscript, with a single output of value 99. -/
def sC3 : ChainState := ⟨[(5, ⟨50, 7⟩)], 0⟩

def txC3 : Transaction := ⟨[⟨5, 1⟩, ⟨5, 2⟩], [⟨99, 8⟩]⟩

/-- C3: the duplicate-input check compares the full (outpoint, sigscript)
pair.  `txC3`'s two inputs share outpoint 5 but differ in sigscript, so the
`BTreeMap` size check passes (2 distinct keys for 2 inputs); the input loop
then adds the single 50-value UTXO once per input, yielding
`total_input = 100`, and validation succeeds with priority
`100 - 99 = 1` even though the store only holds 50 units. -/
theorem c3_duplicate_outpoint_double_count :
    (txC3.inputs.map fun i => i.outpoint) = [5, 5] ∧
    txC3.inputs.dedup.length = txC3.inputs.length ∧
    mapGet sC3.utxoStore 5 = some ⟨50, 7⟩ ∧
    inputSum sC3 txC3 = 100 ∧
    outputSum txC3 = 99 ∧
    validate_transaction vfTrue hash0 sC3 txC3 =
      .ok ⟨[], [encodeH256 0], 1⟩ := by
  refine ⟨by decide, by decide, by decide, by decide, by decide, by decide⟩

/-- C6 (amended): at block finalization with a known block author, the
reward equals the drained `RewardPool` plus the issuance for the current
block height, computed with plain (unchecked, on overflow wrapping — not
saturating) `u128` addition, so it equals `pool + issuance` exactly
whenever that sum fits in `u128`; `RewardTotal` is zero afterwards; a UTXO
`{value: reward, pubkey: author}` is stored under
`H( encode(utxo) || encode_u64_le(height) )`; and
`RewardsIssued{reward, that hash}` is emitted. -/
theorem c6_reward_dispersal (h : HashFn) (s : ChainState)
    (author height issuance : Nat) :
    (on_finalize_utxo h s (some author) height issuance).1.rewardTotal = 0 ∧
    mapGet (on_finalize_utxo h s (some author) height issuance).1.utxoStore
      (h (encodeOutput ⟨(s.rewardTotal + issuance) % 2 ^ 128, author⟩ ++
        encodeU64 (min height (2 ^ 64 - 1)))) =
      some ⟨(s.rewardTotal + issuance) % 2 ^ 128, author⟩ ∧
    (on_finalize_utxo h s (some author) height issuance).2 =
      .RewardsIssued ((s.rewardTotal + issuance) % 2 ^ 128)
        (h (encodeOutput ⟨(s.rewardTotal + issuance) % 2 ^ 128, author⟩ ++
          encodeU64 (min height (2 ^ 64 - 1)))) ∧
    (s.rewardTotal + issuance < 2 ^ 128 →
      (s.rewardTotal + issuance) % 2 ^ 128 = s.rewardTotal + issuance) :=
  ⟨rfl, mapGet_mapInsert_self _ _ _, rfl, fun hlt => Nat.mod_eq_of_lt hlt⟩

/-- C6 witness: dispersal at pool 5, issuance 10, author 7, height 3. -/
theorem c6_reward_dispersal_witness :
    (on_finalize_utxo hash0 ⟨[], 5⟩ (some 7) 3 10).1.rewardTotal = 0 ∧
    ((5 : Nat) + 10) % 2 ^ 128 = 5 + 10 :=
  ⟨(c6_reward_dispersal hash0 ⟨[], 5⟩ 7 3 10).1,
   (c6_reward_dispersal hash0 ⟨[], 5⟩ 7 3 10).2.2.2 (by decide)⟩

/-- C6 counterexample: with the pool at `u128::MAX` and issuance 1 the code
computes reward 0 (wrap-around), while saturating addition — as the claim
states — would give `u128::MAX`. -/
theorem c6_not_saturating_counterexample :
    (disperse_reward hash0 ⟨[], 2 ^ 128 - 1⟩ 7 0 1).2 = .RewardsIssued 0 0 ∧
    (0 : Nat) ≠ min ((2 ^ 128 - 1) + 1) (2 ^ 128 - 1) := by
  refine ⟨by decide, by decide⟩

lemma genesis_fold_pos (h : HashFn) :
    ∀ (utxos : List TransactionOutput) (m : UtxoMap),
      (∀ kv ∈ m, 0 < kv.2.value) → (∀ u ∈ utxos, 0 < u.value) →
      ∀ kv ∈ utxos.foldl (fun m u => mapInsert m (h (encodeOutput u)) u) m,
        0 < kv.2.value := by
  intro utxos
  induction utxos with
  | nil => intro m hm _ kv hkv; exact hm kv hkv
  | cons u rest ih =>
    intro m hm hu kv hkv
    refine ih (mapInsert m (h (encodeOutput u)) u) ?_ ?_ kv hkv
    · intro kv2 hkv2
      rcases mem_mapInsert hkv2 with rfl | h2
      · exact hu u (by simp)
      · exact hm kv2 h2
    · intro o ho
      exact hu o (by simp [ho])

/-- C8 (amended): every output inserted into the UTXO set by applying a
validated transaction has positive value, and positivity of all stored
values is preserved by `spend`.  Genesis loading preserves it only under
the proviso that every configured genesis output has positive value (the
build loop performs no check), and the reward dispatcher only under the
proviso that the computed reward is positive (it inserts the reward UTXO
unconditionally). -/
theorem c8_utxo_value_positivity :
    (∀ (h : HashFn) (utxos : List TransactionOutput),
      (∀ u ∈ utxos, 0 < u.value) →
      ∀ kv ∈ genesis_build_utxo h utxos, 0 < kv.2.value) ∧
    (∀ (vf : SigVerify) (h : HashFn) (s : ChainState) (t : Transaction)
      (s2 : ChainState),
      (∀ kv ∈ s.utxoStore, 0 < kv.2.value) → spend vf h s t = .ok s2 →
      ∀ kv ∈ s2.utxoStore, 0 < kv.2.value) ∧
    (∀ (h : HashFn) (s : ChainState) (author height issuance : Nat),
      (∀ kv ∈ s.utxoStore, 0 < kv.2.value) →
      0 < (s.rewardTotal + issuance) % 2 ^ 128 →
      ∀ kv ∈ (disperse_reward h s author height issuance).1.utxoStore,
        0 < kv.2.value) := by
  refine ⟨?_, ?_, ?_⟩
  · intro h utxos hu
    exact genesis_fold_pos h utxos [] (by simp) hu
  · intro vf h s t s2 hs hok
    simp only [spend] at hok
    split at hok
    · simp at hok
    · rename_i v heq
      split at hok
      · have hpair : validate_transactionST vf h s t = (.ok v, s) := by
          rw [Prod.ext_iff]
          exact ⟨heq, validate_transactionST_state vf h s t⟩
        obtain ⟨_, _, hpos, _⟩ := validate_transactionST_ok vf h s t v s hpair
        obtain ⟨_, hins⟩ := update_storage_ok h s t v.priority s2 hok
        refine insertOutputs_pos h t t.outputs
          (t.inputs.foldl (fun m inp => mapRemove m inp.outpoint) s.utxoStore)
          0 s2.utxoStore ?_ hpos hins
        intro kv hkv
        exact hs kv (foldl_mapRemove_mem hkv)
      · simp at hok
  · intro h s author height issuance hs hr kv hkv
    rcases mem_mapInsert hkv with rfl | h2
    · exact hr
    · exact hs kv h2

/-- C8 witness: the three preservation statements at concrete inputs — a
positive genesis output, the concrete spend `txEx` on `sEx`, and a
dispersal with positive reward. -/
theorem c8_utxo_value_positivity_witness :
    (∀ kv ∈ genesis_build_utxo hash0 [⟨5, 7⟩], 0 < kv.2.value) ∧
    (∀ kv ∈ sExResult.utxoStore, 0 < kv.2.value) ∧
    (∀ kv ∈ (disperse_reward hash0 ⟨[], 5⟩ 7 3 10).1.utxoStore, 0 < kv.2.value) :=
  ⟨c8_utxo_value_positivity.1 hash0 [⟨5, 7⟩] (by decide),
   c8_utxo_value_positivity.2.1 vfTrue hash0 sEx txEx sExResult (by decide)
     (by decide),
   c8_utxo_value_positivity.2.2 hash0 ⟨[], 5⟩ 7 3 10 (by decide) (by decide)⟩

/-- C8 counterexample: genesis loading performs no positivity check — a
configured zero-value genesis output lands in the UTXO set. -/
theorem c8_genesis_zero_value_counterexample :
    ¬ (∀ kv ∈ genesis_build_utxo hash0 [⟨0, 7⟩], 0 < kv.2.value) := by decide

/-- C10: for transactions within the `MAX_TRANSACTION_PARTS = 100` bound on
inputs and outputs, the checked `u64` increments of the output index in
`validate_transaction` and `update_storage` never fail — the
`OutputIndexOverflow` branch is unreachable. -/
theorem c10_output_index_overflow_unreachable (vf : SigVerify) (h : HashFn)
    (s : ChainState) (t : Transaction) (r : Nat)
    (h1 : t.inputs.length ≤ MAX_TRANSACTION_PARTS)
    (h2 : t.outputs.length ≤ MAX_TRANSACTION_PARTS) :
    validate_transaction vf h s t ≠ .error .OutputIndexOverflow ∧
    update_storage h s t r ≠ .error .OutputIndexOverflow := by
  have hb : t.outputs.length < 2 ^ 64 := by
    simp only [MAX_TRANSACTION_PARTS] at h2
    omega
  constructor
  · simp only [validate_transaction, validate_transactionST]
    split
    · simp
    · split
      · simp
      · split
        · simp
        · split
          · simp
          · split
            · rename_i e s1 heq1
              have hni := validateInputsST_no_oio vf (get_simple_transaction t)
                t.inputs s 0 []
              rw [heq1] at hni
              intro hcon
              have h3 : e = .OutputIndexOverflow := by injection hcon
              exact hni (by rw [h3])
            · rename_i totalInput missing s1 heq1
              split
              · rename_i e s2' heq2
                have hno := validateOutputsST_no_oio h t t.outputs s1 0 0 []
                  (by omega)
                rw [heq2] at hno
                intro hcon
                have h3 : e = .OutputIndexOverflow := by injection hcon
                exact hno (by rw [h3])
              · split
                · split
                  · simp
                  · simp
                · simp
  · simp only [update_storage]
    split
    · simp
    · split
      · rename_i store1 e heq
        have := insertOutputs_eq h t t.outputs
          (t.inputs.foldl (fun m inp => mapRemove m inp.outpoint) s.utxoStore)
          0 (by omega)
        rw [heq] at this
        exact absurd this (by simp)
      · simp

/-- C10 witness: the theorem applied to the concrete transaction `txEx`
(1 input, 1 output) with reward 0. -/
theorem c10_output_index_overflow_unreachable_witness :
    validate_transaction vfTrue hash0 sEx txEx ≠ .error .OutputIndexOverflow ∧
    update_storage hash0 sEx txEx 0 ≠ .error .OutputIndexOverflow :=
  c10_output_index_overflow_unreachable vfTrue hash0 sEx txEx 0 (by decide)
    (by decide)
